import Mathlib

/-!
Verification development for the declarative data-extraction core:
secret masking, interpolation falsiness, stream-slice identity,
pagination strategies, and the bounded test-read orchestrator.

Strings are modelled as `List Char` so that the character-level behaviour
of Python's `str.replace` can be reasoned about directly.
-/

namespace Airbyte

/-! ## Definitions: the embedded data model and operations -/

/-- Strings at the character level. -/
abbrev Str := List Char

/-- The fixed mask token used in place of secret values. -/
def maskToken : Str := ['*', '*', '*', '*']

/-- Python's `str.replace(pat, repl)`: replaces every non-overlapping
occurrence of `pat`, scanning left to right and continuing after each
replacement.  An empty pattern is never passed by `filter_secrets`
(it skips falsy secrets), so here it leaves the string unchanged. -/
def str_replace (s pat repl : Str) : Str :=
  match s with
  | [] => []
  | c :: rest =>
    if h : pat ≠ [] ∧ pat.isPrefixOf (c :: rest) then
      repl ++ str_replace ((c :: rest).drop pat.length) pat repl
    else
      c :: str_replace rest pat repl
termination_by s.length
decreasing_by
  · simp only [List.length_drop, List.length_cons]
    have hp : 0 < pat.length := List.length_pos.mpr h.1
    omega
  · simp only [List.length_cons]
    omega

/-- `filter_secrets` from `airbyte_secrets_utils.py`: folds over the
registered secrets, replacing each truthy (non-empty) secret by the mask
token. -/
def filter_secrets (secrets : List Str) (s : Str) : Str :=
  secrets.foldl (fun acc sec => if sec.isEmpty then acc else str_replace acc sec maskToken) s

/-- Serialization glue: chunks joined with a quote delimiter after each chunk. -/
def joinQ : List Str → Str
  | [] => []
  | c :: cs => c ++ '"' :: joinQ cs

/-- Log severity levels of report log entries. -/
inductive LogLevel where
  | error
  | warn
  | info
deriving DecidableEq, Repr

/-- One log entry of the report: message, level, internal message, stack trace. -/
structure LogMessage where
  message : Str
  level : LogLevel
  internal_message : Str
  stacktrace : Str
deriving DecidableEq, Repr

/-- A fetched page, reduced to the records extracted from it (record ids). -/
abbrev Page := List Nat

/-- The three test-read ceilings, with the documented defaults. -/
structure TestReadLimits where
  max_records : Nat := 100
  max_slices : Nat := 5
  max_pages_per_slice : Nat := 5

/-- The orchestrator's report: log entries, per-partition page lists, the
limit-reached flag and auxiliary requests.  The optional inferred-schema /
config-update payloads are omitted: no claim mentions them. -/
structure StreamRead where
  logs : List LogMessage
  slices : List (List Page)
  test_read_limit_reached : Bool
  auxiliary_requests : List Str
deriving DecidableEq, Repr

/-- Modelled from the spec: the page walk of the bounded test-read
orchestrator (its `read_stream` handler and pagination-and-limit decorator
are not among the sources here).  Fetches up to `fuel` pages of one
partition, checking the global record budget between fetches. -/
def fetchPages (f : Nat → Page) : Nat → Nat → Nat → List Page × Nat
  | _, 0, budget => ([], budget)
  | i, fuel + 1, budget =>
    if budget = 0 then ([], 0)
    else
      let p := f i
      let r := fetchPages f (i + 1) fuel (budget - p.length)
      (p :: r.1, r.2)

/-- Modelled from the spec: sequential walk over the partitions under the
per-partition page ceiling and the global record budget. -/
def runSlices : List (Nat → Page) → Nat → Nat → List (List Page) × Nat
  | [], _, budget => ([], budget)
  | f :: rest, maxPages, budget =>
    if budget = 0 then ([], 0)
    else
      let pr := fetchPages f 0 maxPages budget
      let rr := runSlices rest maxPages pr.2
      (pr.1 :: rr.1, rr.2)

/-- The underlying read: either a list of partitions (each an unbounded page
stream) or a raised exception carrying its message and stack trace. -/
abbrev ReadOutcome := Except (Str × Str) (List (Nat → Page))

/-- Modelled from the spec: the bounded test-read orchestrator `read_stream`.
It never propagates an exception: a raised error is caught, redacted with
`filter_secrets`, and returned as an error-level log entry of a well-formed
report; a successful read is walked under the `TestReadLimits` ceilings
(at most `max_slices` partitions, at most `max_pages_per_slice` pages each,
global `max_records` budget, limit flag set when the budget is exhausted). -/
def read_stream (secrets : List Str) (limits : TestReadLimits)
    (outcome : ReadOutcome) : StreamRead :=
  match outcome with
  | .error e =>
    { logs := [{ message := filter_secrets secrets e.1
               , level := .error
               , internal_message := filter_secrets secrets e.1
               , stacktrace := filter_secrets secrets e.2 }]
      slices := []
      test_read_limit_reached := false
      auxiliary_requests := [] }
  | .ok partitions =>
    let r := runSlices (partitions.take limits.max_slices)
      limits.max_pages_per_slice limits.max_records
    { logs := []
      slices := r.1
      test_read_limit_reached := r.2 == 0
      auxiliary_requests := [] }

/-- Text of a log level in the serialized report. -/
def levelChunk : LogLevel → Str
  | .error => "ERROR".toList
  | .warn => "WARN".toList
  | .info => "INFO".toList

/-- Text of a boolean in the serialized report. -/
def boolChunk : Bool → Str
  | true => "true".toList
  | false => "false".toList

/-- Serialization chunks of one log entry: labels and text fields. -/
def logChunks (e : LogMessage) : List Str :=
  ["message:".toList, e.message, "level:".toList, levelChunk e.level,
   "internal_message:".toList, e.internal_message,
   "stacktrace:".toList, e.stacktrace]

/-- Serialization of the whole report: fixed syntax chunks and text fields
joined by quote delimiters. -/
def serializeReport (r : StreamRead) : Str :=
  joinQ ("logs:[".toList :: (r.logs.flatMap logChunks)
    ++ ["slices:".toList, (toString r.slices).toList,
        "test_read_limit_reached:".toList, boolChunk r.test_read_limit_reached,
        "auxiliary_requests:".toList, joinQ r.auxiliary_requests])

/-- The fixed (non-message) serialization chunks of an error report. -/
def errorReportSkeleton : List Str :=
  ["logs:[".toList, "message:".toList, "level:".toList, levelChunk .error,
   "internal_message:".toList, "stacktrace:".toList, "slices:".toList,
   (toString ([] : List (List Page))).toList,
   "test_read_limit_reached:".toList, boolChunk false,
   "auxiliary_requests:".toList, []]

/-- State of the counter-based pagination strategy: the resolved page size
(`None` allowed), the starting page, the first-request injection flag and
the current page. -/
structure PageIncrement where
  page_size : Option Int
  start_from_page : Int := 0
  inject_on_first_request : Bool := false
  page : Int

/-- A freshly constructed strategy: `_page` starts at `start_from_page`. -/
def PageIncrement.init (ps : Option Int) (start : Int) (inj : Bool) :
    PageIncrement :=
  { page_size := ps, start_from_page := start, inject_on_first_request := inj
    page := start }

/-- `initial_token`: the starting page only when injection is requested. -/
def PageIncrement.initial_token (s : PageIncrement) : Option Int :=
  if s.inject_on_first_request then some s.page else none

/-- `next_page_token` of `PageIncrement`: stop (return `none`) when the last
page was shorter than a truthy page size or empty, otherwise increment the
page and return it.  The Python guard `self._page_size and last_page_size <
self._page_size` treats both `None` and `0` page sizes as falsy. -/
def PageIncrement.next_page_token (s : PageIncrement) (last_page_size : Nat) :
    Option Int × PageIncrement :=
  if ((match s.page_size with
       | some ps => (ps != 0) && decide ((last_page_size : Int) < ps)
       | none => false)
      || last_page_size == 0) then
    (none, s)
  else
    (some (s.page + 1), { s with page := s.page + 1 })

/-- Feed successive page sizes through the strategy, collecting the tokens. -/
def runPageIncrement (s : PageIncrement) : List Nat → List (Option Int)
  | [] => []
  | n :: rest =>
    let r := s.next_page_token n
    r.1 :: runPageIncrement r.2 rest

/-- JSON-like Python runtime values as produced by template evaluation. -/
inductive PyVal where
  | none
  | bool (b : Bool)
  | int (n : Int)
  | float (q : Rat)
  | str (s : String)
  | list (l : List PyVal)
  | tuple (l : List PyVal)
  | dict (d : List (String × PyVal))
  | set (l : List PyVal)

/-- Key lookup in a Python dict represented as an association list. -/
def lookupStr (d : List (String × PyVal)) (k : String) : Option PyVal :=
  match d with
  | [] => Option.none
  | kv :: rest => if kv.1 = k then some kv.2 else lookupStr rest k

mutual

/-- Python `==` on runtime values: the numeric tower identifies booleans
with 0/1 across int and float; containers compare element-wise; all other
cross-type comparisons are unequal. -/
def pyEq : PyVal → PyVal → Bool
  | .none, .none => true
  | .bool a, .bool b => a == b
  | .bool a, .int n => (if a then (1 : Int) else 0) == n
  | .bool a, .float q => (if a then (1 : Rat) else 0) == q
  | .int m, .bool b => m == (if b then (1 : Int) else 0)
  | .int m, .int n => m == n
  | .int m, .float q => ((m : Rat) == q)
  | .float p, .bool b => p == (if b then (1 : Rat) else 0)
  | .float p, .int n => (p == (n : Rat))
  | .float p, .float q => p == q
  | .str a, .str b => a == b
  | .list a, .list b => pyEqList a b
  | .tuple a, .tuple b => pyEqList a b
  | .dict a, .dict b => pyEqDict a b && b.all (fun kv => (lookupStr a kv.1).isSome)
  | .set a, .set b => pySubset a b && pySubset b a
  | _, _ => false
termination_by a b => sizeOf a + sizeOf b

/-- Element-wise Python `==` on sequences. -/
def pyEqList : List PyVal → List PyVal → Bool
  | [], [] => true
  | x :: xs, y :: ys => pyEq x y && pyEqList xs ys
  | _, _ => false
termination_by a b => sizeOf a + sizeOf b

/-- Every key of the first dict maps to a `==`-equal value in the second. -/
def pyEqDict : List (String × PyVal) → List (String × PyVal) → Bool
  | [], _ => true
  | kv :: rest, b =>
    (match h : lookupStr b kv.1 with
     | some w => pyEq kv.2 w
     | Option.none => false) && pyEqDict rest b
termination_by a b => sizeOf a + sizeOf b
decreasing_by
  · have hw : sizeOf w < sizeOf b := by
      have aux : ∀ (d : List (String × PyVal)) (k : String) (v : PyVal),
          lookupStr d k = some v → sizeOf v < sizeOf d := by
        intro d
        induction d with
        | nil => intro k v hh; simp [lookupStr] at hh
        | cons kv2 rest2 ih2 =>
          intro k v hh
          obtain ⟨a2, b2⟩ := kv2
          simp only [lookupStr] at hh
          split at hh
          · injection hh with hh
            subst hh
            simp only [List.cons.sizeOf_spec, Prod.mk.sizeOf_spec]
            omega
          · have := ih2 k v hh
            simp only [List.cons.sizeOf_spec]
            omega
      exact aux b kv.1 w h
    obtain ⟨k0, v0⟩ := kv
    simp only [List.cons.sizeOf_spec, Prod.mk.sizeOf_spec]
    simp only [Prod.mk.sizeOf_spec] at hw ⊢
    omega
  · simp only [List.cons.sizeOf_spec]
    omega

/-- Python `in` over a list of values: membership via `==`. -/
def pyMem (x : PyVal) : List PyVal → Bool
  | [] => false
  | y :: ys => pyEq x y || pyMem x ys
termination_by l => sizeOf x + sizeOf l

/-- Every element of the first set occurs in the second. -/
def pySubset : List PyVal → List PyVal → Bool
  | [], _ => true
  | x :: xs, b => pyMem x b && pySubset xs b
termination_by a b => sizeOf a + sizeOf b

end

/-- Python dict `==`: every key of each side maps to an equal value in the
other (for the duplicate-free dicts that Python guarantees this is exactly
CPython's size-and-lookup comparison). -/
def dictEq (a b : List (String × PyVal)) : Bool :=
  pyEqDict a b && b.all (fun kv => (lookupStr a kv.1).isSome)

/-- Python truthiness of a runtime value. -/
def pyTruthy : PyVal → Bool
  | .none => false
  | .bool b => b
  | .int n => n != 0
  | .float q => q != 0
  | .str s => !s.isEmpty
  | .list l => !l.isEmpty
  | .tuple l => !l.isEmpty
  | .dict d => !d.isEmpty
  | .set l => !l.isEmpty

/-- `FALSE_VALUES` from `interpolated_boolean.py`: the closed list of values
whose presence means "false". -/
def FALSE_VALUES : List PyVal :=
  [.str "False", .str "false", .str "\x7b\x7d", .str "[]", .str "()",
   .str "", .str "0", .str "0.0", .dict [], .bool false, .list [],
   .tuple [], .set []]

/-- Python's `evaluated in FALSE_VALUES`: list membership via `==`. -/
def inFalseValues (v : PyVal) : Bool :=
  FALSE_VALUES.any (fun x => pyEq x v)

/-- The boolean template wrapper: its condition is either a literal boolean
(the runtime `isinstance(self.condition, bool)` shortcut) or a template. -/
structure InterpolatedBoolean where
  condition : Sum Bool String

/-- Modelled from the spec: the template engine (`JinjaInterpolation`, not
among the sources here) resolves the template to a value or raises, in which
case it returns the caller's default — for the boolean wrapper the string
`"False"`. -/
def engineResult (outcome : Except Unit PyVal) : PyVal :=
  match outcome with
  | .ok v => v
  | .error _ => .str "False"

/-- `InterpolatedBoolean.eval`: a literal boolean condition passes through;
otherwise the resolved value is classified as false exactly when it lies in
`FALSE_VALUES`, and as true otherwise. -/
def InterpolatedBoolean.eval (ib : InterpolatedBoolean)
    (outcome : Except Unit PyVal) : Bool :=
  match ib.condition with
  | .inl b => b
  | .inr _ =>
    if inFalseValues (engineResult outcome) then false else true

/-- The falsy classification spelled out value by value: `False`, numeric
zero (which Python's `==` identifies with `False`), the eight falsy literal
strings, and empty collections — and not `None`, which Python's `==` does
not identify with any member of `FALSE_VALUES`. -/
def FalsyResolved : PyVal → Prop
  | .bool b => b = false
  | .int n => n = 0
  | .float q => q = 0
  | .str s => s = "False" ∨ s = "false" ∨ s = "\x7b\x7d" ∨ s = "[]"
      ∨ s = "()" ∨ s = "" ∨ s = "0" ∨ s = "0.0"
  | .none => False
  | .list l => l = []
  | .tuple l => l = []
  | .dict d => d = []
  | .set l => l = []

mutual
/-- A slice constituent as stored: a plain mapping, or itself a stream
slice (nesting is permitted). -/
inductive SMap where
  | dict (d : List (String × PyVal))
  | slice (s : StreamSlice)

/-- `StreamSlice`: the stored partition and cursor constituents plus the
informational `extra_fields`. -/
inductive StreamSlice where
  | mk (partition : SMap) (cursor_slice : SMap) (extra_fields : List (String × PyVal))
end

mutual
/-- `dict(m)` of a constituent: a plain dict is itself; a stream slice
iterates its merged `_stream_slice` mapping. -/
def smapDict : SMap → List (String × PyVal)
  | .dict d => d
  | .slice s => streamSliceDict s

/-- `_stream_slice = dict(partition) | dict(cursor_slice)`: the right-biased
union of the two constituent mappings. -/
def streamSliceDict : StreamSlice → List (String × PyVal)
  | .mk p c _ =>
    (smapDict p).filter (fun kv => (lookupStr (smapDict c) kv.1).isNone) ++ smapDict c
end

/-- The keys a constituent exposes as a `Mapping` (merged for nested slices). -/
def smapKeys (m : SMap) : List String :=
  (smapDict m).map Prod.fst

/-- The Python overlap test `partition.keys() & cursor_slice.keys()`. -/
def keysOverlap (p c : SMap) : Bool :=
  (smapKeys p).any (fun k => (smapKeys c).contains k)

/-- `StreamSlice.__init__`: raises (`ValueError`) when the partition and
cursor-slice key sets overlap, otherwise stores the constituents and the
`extra_fields`. -/
def StreamSlice.make (p c : SMap) (e : List (String × PyVal)) :
    Except String StreamSlice :=
  if keysOverlap p c then
    Except.error "Keys for partition and incremental sync cursor should not overlap"
  else
    Except.ok (.mk p c e)

/-- Whether construction failed. -/
def isErr (r : Except String StreamSlice) : Bool :=
  match r with
  | .error _ => true
  | .ok _ => false

/-- The `partition` property: unwraps nested slices to the innermost plain
mapping (the Python `while isinstance(p, StreamSlice): p = p.partition`). -/
def StreamSlice.partition : StreamSlice → List (String × PyVal)
  | .mk (.dict d) _ _ => d
  | .mk (.slice s) _ _ => StreamSlice.partition s

/-- The `cursor_slice` property, analogously. -/
def StreamSlice.cursor_slice : StreamSlice → List (String × PyVal)
  | .mk _ (.dict d) _ => d
  | .mk _ (.slice s) _ => StreamSlice.cursor_slice s

/-- The `extra_fields` property. -/
def StreamSlice.extra_fields : StreamSlice → List (String × PyVal)
  | .mk _ _ e => e

mutual
/-- Python `==` on stored constituents (`self._partition ==
other._partition`): dict against dict is dict equality; a slice compared
with a dict falls back to `StreamSlice.__eq__`, which compares the slice's
merged `_stream_slice` mapping with the dict; two slices recurse into
`StreamSlice.__eq__`. -/
def smapEq : SMap → SMap → Bool
  | .dict a, .dict b => dictEq a b
  | .dict a, .slice s => dictEq a (streamSliceDict s)
  | .slice s, .dict b => dictEq (streamSliceDict s) b
  | .slice a, .slice b => streamSliceEq a b

/-- `StreamSlice.__eq__` between two slices: the stored partition and cursor
constituents must be `==`; `extra_fields` never participates. -/
def streamSliceEq : StreamSlice → StreamSlice → Bool
  | .mk p1 c1 _, .mk p2 c2 _ => smapEq p1 p2 && smapEq c1 c2
end

/-- Wrap a slice `n` levels deep in the partition constituent (with empty
cursor slices, which never overlap). -/
def nestPartition : Nat → StreamSlice → StreamSlice
  | 0, s => s
  | n + 1, s => .mk (.slice (nestPartition n s)) (.dict []) []

/-- Wrap a slice `n` levels deep in the cursor constituent. -/
def nestCursor : Nat → StreamSlice → StreamSlice
  | 0, s => s
  | n + 1, s => .mk (.dict []) (.slice (nestCursor n s)) []

/-- `Record`: an immutable data mapping plus the non-owning back-reference
to the slice that produced it. -/
structure Record where
  data : List (String × PyVal)
  associated_slice : Option StreamSlice

/-- An arbitrary Python object a `Record` may be compared against. -/
inductive PyObj where
  | obj (v : PyVal)
  | record (r : Record)
  | slice (s : StreamSlice)

/-- Python `==` between a `Record` and any object, reflected dispatch
included: `Record.__eq__` compares `data` mappings for another `Record` and
returns `False` otherwise; for a non-`Record` right-hand side the reflected
`__eq__` (`dict.__eq__` on a non-dict, or `StreamSlice.__eq__` on a
non-dict non-slice) also rejects, so the whole comparison is `False`. -/
def recordPyEq (self : Record) (other : PyObj) : Bool :=
  match other with
  | .record r => dictEq self.data r.data
  | .obj _ => false
  | .slice _ => false

/-- The cursor pagination strategy over an abstract evaluation context `α`
(the decoded response, headers, last record and last page size).  The two
interpolated components are abstracted as evaluator functions, the template
engine itself being outside the sources here (modelled from the spec):
`stop_condition` is `none` when no stop condition is configured, and
`cursor_value` produces the evaluated cursor value. -/
structure CursorPaginationStrategy (α : Type) where
  cursor_value : α → PyVal
  stop_condition : Option (α → Bool)
  page_size : Option Int := Option.none

/-- `CursorPaginationStrategy.next_page_token`: when a stop condition is
configured it is evaluated first — if true, pagination ends regardless of
the cursor value; otherwise the cursor template is evaluated and `token or
None` maps a falsy token to `None`. -/
def CursorPaginationStrategy.next_page_token {α : Type}
    (s : CursorPaginationStrategy α) (ctx : α) : Option PyVal :=
  match s.stop_condition with
  | some cond =>
    if cond ctx then Option.none
    else
      let token := s.cursor_value ctx
      if pyTruthy token then some token else Option.none
  | Option.none =>
    let token := s.cursor_value ctx
    if pyTruthy token then some token else Option.none

/-- A strategy whose stop condition always evaluates true while its cursor
expression evaluates to a non-empty value. -/
def stopTrueStrategy : CursorPaginationStrategy Unit :=
  { cursor_value := fun _ => .str "next", stop_condition := some (fun _ => true) }

/-- A strategy without stop condition whose cursor evaluates to `""`. -/
def emptyCursorStrategy : CursorPaginationStrategy Unit :=
  { cursor_value := fun _ => .str "", stop_condition := Option.none }

/-- A slice with distinct partition and cursor keys. -/
def innerSlice : StreamSlice := .mk (.dict [("a", .int 1)]) (.dict [("b", .int 2)]) []

/-- A slice whose partition constituent is itself a slice. -/
def outerA : StreamSlice := .mk (.slice innerSlice) (.dict []) []

/-- A slice whose partition is the innermost partition mapping of `outerA`. -/
def outerB : StreamSlice := .mk (.dict [("a", .int 1)]) (.dict []) []

/-- The C2 fixture: each partition's pages cycle through a 2-record page
followed by a 1-record page. -/
def fixturePartition : Nat → Page := fun j => if j % 2 = 0 then [0, 1] else [2]

/-! ## Theorems -/

theorem str_replace_nil (pat repl : Str) : str_replace [] pat repl = [] := by
  rw [str_replace.eq_def]

theorem str_replace_cons_pos {c : Char} {rest pat : Str} (repl : Str)
    (h1 : pat ≠ []) (h2 : pat.isPrefixOf (c :: rest)) :
    str_replace (c :: rest) pat repl
      = repl ++ str_replace ((c :: rest).drop pat.length) pat repl := by
  rw [str_replace.eq_def]
  exact dif_pos ⟨h1, h2⟩

theorem str_replace_cons_neg {c : Char} {rest pat : Str} (repl : Str)
    (h : ¬(pat ≠ [] ∧ pat.isPrefixOf (c :: rest))) :
    str_replace (c :: rest) pat repl = c :: str_replace rest pat repl := by
  rw [str_replace.eq_def]
  exact dif_neg h

/-- A mask-character-free prefix of a replacement output is a prefix of the
input: replacement only inserts `'*'` characters and removes occurrences. -/
theorem prefix_of_str_replace :
    ∀ (n : Nat) (p s pat : Str), (∀ ch ∈ p, ch ≠ '*') → s.length ≤ n →
      p <+: str_replace s pat maskToken → p <+: s := by
  intro n
  induction n with
  | zero =>
    intro p s pat _ hl hpre
    have hs : s = [] := List.length_eq_zero.mp (Nat.le_zero.mp hl)
    subst hs
    rwa [str_replace_nil] at hpre
  | succ n ih =>
    intro p s pat hp hl hpre
    cases s with
    | nil => rwa [str_replace_nil] at hpre
    | cons c rest =>
      simp only [List.length_cons] at hl
      by_cases h1 : pat ≠ [] ∧ pat.isPrefixOf (c :: rest)
      · rw [str_replace_cons_pos maskToken h1.1 h1.2] at hpre
        cases p with
        | nil => exact List.nil_prefix
        | cons d p' =>
          simp only [maskToken, List.cons_append] at hpre
          obtain ⟨hd, -⟩ := List.cons_prefix_cons.mp hpre
          exact absurd hd (hp d (List.mem_cons_self d p'))
      · rw [str_replace_cons_neg maskToken h1] at hpre
        cases p with
        | nil => exact List.nil_prefix
        | cons d p' =>
          obtain ⟨hd, hp'⟩ := List.cons_prefix_cons.mp hpre
          have hrest : p' <+: rest := by
            refine ih p' rest pat (fun ch hch => hp ch (List.mem_cons_of_mem d hch)) ?_ hp'
            omega
          subst hd
          exact List.cons_prefix_cons.mpr ⟨rfl, hrest⟩

/-- A mask-character-free infix of `'*' :: w` is empty or an infix of `w`. -/
theorem infix_star_cons {p w : Str} (hp : ∀ ch ∈ p, ch ≠ '*')
    (h : p <:+: '*' :: w) : p = [] ∨ p <:+: w := by
  rcases List.infix_cons_iff.mp h with hpre | hinf
  · cases p with
    | nil => exact Or.inl rfl
    | cons d p' =>
      obtain ⟨hd, -⟩ := List.cons_prefix_cons.mp hpre
      exact absurd hd (hp d (List.mem_cons_self d p'))
  · exact Or.inr hinf

/-- A mask-character-free infix of `maskToken ++ X` is empty or an infix of `X`. -/
theorem infix_star_mask {p X : Str} (hp : ∀ ch ∈ p, ch ≠ '*')
    (h : p <:+: maskToken ++ X) : p = [] ∨ p <:+: X := by
  simp only [maskToken, List.cons_append, List.nil_append] at h
  rcases infix_star_cons hp h with h0 | h
  · exact Or.inl h0
  rcases infix_star_cons hp h with h0 | h
  · exact Or.inl h0
  rcases infix_star_cons hp h with h0 | h
  · exact Or.inl h0
  rcases infix_star_cons hp h with h0 | h
  · exact Or.inl h0
  exact Or.inr h

/-- A mask-character-free infix of a replacement output was already an infix
of the input. -/
theorem infix_of_str_replace :
    ∀ (n : Nat) (p s pat : Str), (∀ ch ∈ p, ch ≠ '*') → s.length ≤ n →
      p <:+: str_replace s pat maskToken → p <:+: s := by
  intro n
  induction n with
  | zero =>
    intro p s pat _ hl hinf
    have hs : s = [] := List.length_eq_zero.mp (Nat.le_zero.mp hl)
    subst hs
    rwa [str_replace_nil] at hinf
  | succ n ih =>
    intro p s pat hp hl hinf
    cases s with
    | nil => rwa [str_replace_nil] at hinf
    | cons c rest =>
      simp only [List.length_cons] at hl
      by_cases h1 : pat ≠ [] ∧ pat.isPrefixOf (c :: rest)
      · rw [str_replace_cons_pos maskToken h1.1 h1.2] at hinf
        rcases infix_star_mask hp hinf with h0 | hX
        · subst h0; exact List.nil_infix
        · have hdrop : ((c :: rest).drop pat.length).length ≤ n := by
            simp only [List.length_drop, List.length_cons]
            have : 0 < pat.length := List.length_pos.mpr h1.1
            omega
          have hmem := ih p ((c :: rest).drop pat.length) pat hp hdrop hX
          exact hmem.trans (List.drop_suffix pat.length (c :: rest)).isInfix
      · rw [str_replace_cons_neg maskToken h1] at hinf
        rcases List.infix_cons_iff.mp hinf with hpre | hinf'
        · have hfull : p <+: str_replace (c :: rest) pat maskToken := by
            rwa [str_replace_cons_neg maskToken h1]
          exact (prefix_of_str_replace (c :: rest).length p (c :: rest) pat hp
            (le_refl _) hfull).isInfix
        · exact List.infix_cons (ih p rest pat hp (by omega) hinf')

/-- Replacing a non-empty, mask-character-free pattern eliminates every
occurrence of it: the pattern is not an infix of the output. -/
theorem str_replace_self_erased :
    ∀ (n : Nat) (s pat : Str), pat ≠ [] → (∀ ch ∈ pat, ch ≠ '*') → s.length ≤ n →
      ¬ pat <:+: str_replace s pat maskToken := by
  intro n
  induction n with
  | zero =>
    intro s pat hne _ hl hinf
    have hs : s = [] := List.length_eq_zero.mp (Nat.le_zero.mp hl)
    subst hs
    rw [str_replace_nil] at hinf
    exact hne (List.infix_nil.mp hinf)
  | succ n ih =>
    intro s pat hne hstar hl hinf
    cases s with
    | nil =>
      rw [str_replace_nil] at hinf
      exact hne (List.infix_nil.mp hinf)
    | cons c rest =>
      simp only [List.length_cons] at hl
      by_cases h1 : pat ≠ [] ∧ pat.isPrefixOf (c :: rest)
      · rw [str_replace_cons_pos maskToken h1.1 h1.2] at hinf
        rcases infix_star_mask hstar hinf with h0 | hX
        · exact hne h0
        · have hdrop : ((c :: rest).drop pat.length).length ≤ n := by
            simp only [List.length_drop, List.length_cons]
            have : 0 < pat.length := List.length_pos.mpr h1.1
            omega
          exact ih _ pat hne hstar hdrop hX
      · rw [str_replace_cons_neg maskToken h1] at hinf
        rcases List.infix_cons_iff.mp hinf with hpre | hinf'
        · have hfull : pat <+: str_replace (c :: rest) pat maskToken := by
            rwa [str_replace_cons_neg maskToken h1]
          have hps : pat <+: c :: rest :=
            prefix_of_str_replace (c :: rest).length pat (c :: rest) pat hstar
              (le_refl _) hfull
          exact h1 ⟨hne, List.isPrefixOf_iff_prefix.mpr hps⟩
        · exact ih rest pat hne hstar (by omega) hinf'

/-- Later replacement passes cannot reintroduce a mask-character-free string
that is absent. -/
theorem filter_secrets_preserves_absence :
    ∀ (secrets : List Str) (acc sec : Str), (∀ ch ∈ sec, ch ≠ '*') →
      ¬ sec <:+: acc → ¬ sec <:+: filter_secrets secrets acc := by
  intro secrets
  induction secrets with
  | nil => intro acc sec _ h hinf; exact h hinf
  | cons s' rest ih =>
    intro acc sec hstar h
    have hstep : ¬ sec <:+: (if s'.isEmpty then acc else str_replace acc s' maskToken) := by
      by_cases he : s'.isEmpty
      · simpa [he] using h
      · simp only [he, if_false]
        intro hinf
        exact h (infix_of_str_replace acc.length sec acc s' hstar (le_refl _) hinf)
    have heq : filter_secrets (s' :: rest) acc
        = filter_secrets rest (if s'.isEmpty then acc else str_replace acc s' maskToken) := rfl
    rw [heq]
    exact ih _ sec hstar hstep

/-- No registered secret that is non-empty and free of the mask character
occurs in the output of `filter_secrets`. -/
theorem filter_secrets_absent :
    ∀ (secrets : List Str) (msg : Str),
      (∀ s' ∈ secrets, s' ≠ [] ∧ ∀ ch ∈ s', ch ≠ '*') →
      ∀ sec ∈ secrets, ¬ sec <:+: filter_secrets secrets msg := by
  intro secrets
  induction secrets with
  | nil => intro msg _ sec hmem; exact absurd hmem (List.not_mem_nil sec)
  | cons s' rest ih =>
    intro msg hs sec hmem
    have hstep : filter_secrets (s' :: rest) msg
        = filter_secrets rest (if s'.isEmpty then msg else str_replace msg s' maskToken) := rfl
    rcases List.mem_cons.mp hmem with rfl | hmem'
    · obtain ⟨hne, hstar⟩ := hs sec (List.mem_cons_self sec rest)
      rw [hstep]
      have hemp : sec.isEmpty = false := by
        cases sec with
        | nil => exact absurd rfl hne
        | cons a l => rfl
      have hbase : ¬ sec <:+: (if sec.isEmpty then msg else str_replace msg sec maskToken) := by
        rw [hemp]
        simp only [Bool.false_eq_true, if_false]
        exact str_replace_self_erased msg.length msg sec hne hstar (le_refl _)
      exact filter_secrets_preserves_absence rest _ sec hstar hbase
    · rw [hstep]
      exact ih _ (fun t ht => hs t (List.mem_cons_of_mem s' ht)) sec hmem'

/-- Replacing a pattern that does not occur in a string is a no-op. -/
theorem str_replace_noop (pat repl : Str) :
    ∀ s : Str, ¬ pat <:+: s → str_replace s pat repl = s := by
  intro s
  induction s with
  | nil => intro _; exact str_replace_nil pat repl
  | cons c rest ih =>
    intro hinf
    have hnp : ¬ pat.isPrefixOf (c :: rest) := fun hp =>
      hinf ( List.isPrefixOf_iff_prefix.mp hp).isInfix
    rw [str_replace_cons_neg repl (fun hh => hnp hh.2)]
    rw [ih (fun hh => hinf (List.infix_cons hh))]

/-- A quote-free prefix of `a ++ '"' :: b` is a prefix of `a`. -/
theorem prefix_through_quote :
    ∀ (a p b : Str), '"' ∉ p → p <+: a ++ '"' :: b → p <+: a := by
  intro a
  induction a with
  | nil =>
    intro p b hq hpre
    cases p with
    | nil => exact List.nil_prefix
    | cons d p' =>
      simp only [List.nil_append] at hpre
      obtain ⟨hd, -⟩ := List.cons_prefix_cons.mp hpre
      subst hd
      exact absurd (List.mem_cons_self _ _) hq
  | cons c a' ih =>
    intro p b hq hpre
    cases p with
    | nil => exact List.nil_prefix
    | cons d p' =>
      simp only [List.cons_append] at hpre
      obtain ⟨hd, hp'⟩ := List.cons_prefix_cons.mp hpre
      subst hd
      have hrec := ih p' b (fun hm => hq (List.mem_cons_of_mem _ hm)) hp'
      exact List.cons_prefix_cons.mpr ⟨rfl, hrec⟩

/-- A quote-free infix of `a ++ '"' :: b` is an infix of `a` or of `b`. -/
theorem infix_through_quote :
    ∀ (a p b : Str), '"' ∉ p → p <:+: a ++ '"' :: b → p <:+: a ∨ p <:+: b := by
  intro a
  induction a with
  | nil =>
    intro p b hq hinf
    simp only [List.nil_append] at hinf
    rcases List.infix_cons_iff.mp hinf with hpre | hinf'
    · cases p with
      | nil => exact Or.inl List.nil_infix
      | cons d p' =>
        obtain ⟨hd, -⟩ := List.cons_prefix_cons.mp hpre
        subst hd
        exact absurd (List.mem_cons_self _ _) hq
    · exact Or.inr hinf'
  | cons c a' ih =>
    intro p b hq hinf
    simp only [List.cons_append] at hinf
    rcases List.infix_cons_iff.mp hinf with hpre | hinf'
    · have hpa : p <+: c :: a' := by
        have hfull : p <+: (c :: a') ++ '"' :: b := by simpa using hpre
        exact prefix_through_quote (c :: a') p b hq hfull
      exact Or.inl hpa.isInfix
    · rcases ih p b hq hinf' with h | h
      · exact Or.inl (List.infix_cons h)
      · exact Or.inr h

/-- A non-empty quote-free string absent from every chunk is absent from the
quote-joined serialization. -/
theorem joinQ_absent :
    ∀ (chunks : List Str) (p : Str), p ≠ [] → '"' ∉ p →
      (∀ c ∈ chunks, ¬ p <:+: c) → ¬ p <:+: joinQ chunks := by
  intro chunks
  induction chunks with
  | nil =>
    intro p hne _ _ hinf
    exact hne (List.infix_nil.mp hinf)
  | cons c cs ih =>
    intro p hne hq hc hinf
    rcases infix_through_quote c p (joinQ cs) hq hinf with h | h
    · exact hc c (List.mem_cons_self c cs) h
    · exact ih p hne hq (fun t ht => hc t (List.mem_cons_of_mem c ht)) h

set_option maxRecDepth 8000 in
/-- Membership in `FALSE_VALUES` coincides with the spelled-out falsy
classification. -/
theorem inFalseValues_iff (v : PyVal) : inFalseValues v = true ↔ FalsyResolved v := by
  cases v with
  | none => simp [inFalseValues, FALSE_VALUES, pyEq, FalsyResolved]
  | bool b => cases b <;> simp [inFalseValues, FALSE_VALUES, pyEq, FalsyResolved]
  | int n =>
    simp [inFalseValues, FALSE_VALUES, pyEq, FalsyResolved]
    exact eq_comm
  | float q =>
    simp [inFalseValues, FALSE_VALUES, pyEq, FalsyResolved]
    exact eq_comm
  | str s =>
    simp [inFalseValues, FALSE_VALUES, pyEq, FalsyResolved]
    constructor
    · intro h
      rcases h with h | h | h | h | h | h | h | h <;> simp [h.symm]
    · intro h
      rcases h with h | h | h | h | h | h | h | h <;> simp [h]
  | list l => cases l <;> simp [inFalseValues, FALSE_VALUES, pyEq, pyEqList, FalsyResolved]
  | tuple l => cases l <;> simp [inFalseValues, FALSE_VALUES, pyEq, pyEqList, FalsyResolved]
  | dict d =>
    cases d <;> simp [inFalseValues, FALSE_VALUES, pyEq, pyEqDict, lookupStr, FalsyResolved]
  | set l => cases l <;> simp [inFalseValues, FALSE_VALUES, pyEq, pySubset, pyMem, FalsyResolved]

theorem nestPartition_partition :
    ∀ (n : Nat) (s : StreamSlice),
      StreamSlice.partition (nestPartition n s) = StreamSlice.partition s := by
  intro n
  induction n with
  | zero => intro s; rfl
  | succ n ih =>
    intro s
    simp only [nestPartition, StreamSlice.partition]
    exact ih s

theorem nestCursor_cursor :
    ∀ (n : Nat) (s : StreamSlice),
      StreamSlice.cursor_slice (nestCursor n s) = StreamSlice.cursor_slice s := by
  intro n
  induction n with
  | zero => intro s; rfl
  | succ n ih =>
    intro s
    simp only [nestCursor, StreamSlice.cursor_slice]
    exact ih s

theorem keysOverlap_empty_cursor (m : SMap) : keysOverlap m (.dict []) = false := by
  simp [keysOverlap, smapKeys, smapDict]

theorem keysOverlap_empty_partition (m : SMap) : keysOverlap (.dict []) m = false := by
  simp [keysOverlap, smapKeys, smapDict]

/-- C6: for a `PageIncrement` strategy with page size 2 and successive page
record counts `[2, 2, 1]`, `next_page_token` returns a token after pages 1
and 2 and `None` after page 3; and for any page with 0 records (any state of
the strategy), it returns `None` immediately. -/
theorem C6_page_increment_termination :
    runPageIncrement (PageIncrement.init (some 2) 0 false) [2, 2, 1] = [some 1, some 2, Option.none]
    ∧ ∀ s : PageIncrement, (s.next_page_token 0).1 = Option.none := by
  constructor
  · rfl
  · intro s
    simp [PageIncrement.next_page_token]

/-- C9: with `page_size = None`, `next_page_token` returns `None` exactly
when the last page was empty, and an incremented token for every positive
last page size, no matter how short the page. -/
theorem C9_page_increment_no_page_size (start page : Int) (inj : Bool) (last : Nat) :
    ((PageIncrement.next_page_token ⟨Option.none, start, inj, page⟩ last).1 = Option.none
        ↔ last = 0)
    ∧ (last ≠ 0 →
        (PageIncrement.next_page_token ⟨Option.none, start, inj, page⟩ last).1
          = some (page + 1)) := by
  by_cases h : last = 0 <;> simp [PageIncrement.next_page_token, h]

/-- Witness for C9 at `last = 3`, current page 5. -/
theorem C9_witness :
    (PageIncrement.next_page_token ⟨Option.none, 0, false, 5⟩ 3).1 = some 6 :=
  (C9_page_increment_no_page_size 0 5 false 3).2 (by decide)

/-- C7: the stop condition takes precedence — if it evaluates true, no token
is produced regardless of the cursor value; and with the stop condition
false or absent, a falsy evaluated cursor also yields no token. -/
theorem C7_cursor_stop_condition_precedence {α : Type} :
    (∀ (s : CursorPaginationStrategy α) (ctx : α) (cond : α → Bool),
        s.stop_condition = some cond → cond ctx = true →
        s.next_page_token ctx = Option.none)
    ∧ ∀ (s : CursorPaginationStrategy α) (ctx : α),
        pyTruthy (s.cursor_value ctx) = false →
        s.next_page_token ctx = Option.none := by
  constructor
  · intro s ctx cond hsc hc
    simp [CursorPaginationStrategy.next_page_token, hsc, hc]
  · intro s ctx htok
    rcases hsc : s.stop_condition with _ | cond
    · simp [CursorPaginationStrategy.next_page_token, hsc, htok]
    · by_cases hc : cond ctx <;>
        simp [CursorPaginationStrategy.next_page_token, hsc, hc, htok]

/-- Witness for C7: a true stop condition suppresses a non-empty cursor, and
an empty cursor without stop condition yields no token. -/
theorem C7_witness :
    stopTrueStrategy.next_page_token () = Option.none
    ∧ emptyCursorStrategy.next_page_token () = Option.none := by
  constructor
  · exact C7_cursor_stop_condition_precedence.1 stopTrueStrategy () (fun _ => true) rfl rfl
  · exact C7_cursor_stop_condition_precedence.2 emptyCursorStrategy () (by decide)

/-- C5: constructing a `StreamSlice` fails exactly when the partition and
cursor key sets overlap; and slice equality compares the stored partition
and cursor constituents (for plain mappings: the two mappings), never the
`extra_fields`. -/
theorem C5_stream_slice_invariant :
    (∀ (p c e : List (String × PyVal)),
        isErr (StreamSlice.make (.dict p) (.dict c) e) = keysOverlap (.dict p) (.dict c))
    ∧ (∀ (p1 c1 p2 c2 : SMap) (x1 x2 : List (String × PyVal)),
        streamSliceEq (.mk p1 c1 x1) (.mk p2 c2 x2) = (smapEq p1 p2 && smapEq c1 c2))
    ∧ (∀ (p1 c1 e1 p2 c2 e2 : List (String × PyVal)),
        streamSliceEq (.mk (.dict p1) (.dict c1) e1) (.mk (.dict p2) (.dict c2) e2)
          = (dictEq p1 p2 && dictEq c1 c2)) := by
  refine ⟨?_, ?_, ?_⟩
  · intro p c e
    by_cases h : keysOverlap (.dict p) (.dict c) <;> simp [StreamSlice.make, isErr, h]
  · intro p1 c1 p2 c2 x1 x2
    simp [streamSliceEq]
  · intro p1 c1 e1 p2 c2 e2
    simp [streamSliceEq, smapEq]

/-- C10: two records are `==` exactly when their data mappings are equal,
whatever their associated slices; and a record is never `==` to a
non-record, including a plain mapping with the same entries. -/
theorem C10_record_equality :
    (∀ (d1 d2 : List (String × PyVal)) (s1 s2 : Option StreamSlice),
        recordPyEq ⟨d1, s1⟩ (.record ⟨d2, s2⟩) = dictEq d1 d2)
    ∧ (∀ (r : Record) (v : PyVal), recordPyEq r (.obj v) = false)
    ∧ (∀ (r : Record) (s : StreamSlice), recordPyEq r (.slice s) = false)
    ∧ ∀ r : Record, recordPyEq r (.obj (.dict r.data)) = false :=
  ⟨fun _ _ _ _ => rfl, fun _ _ => rfl, fun _ _ => rfl, fun _ => rfl⟩

/-- C4 counterexample: a template resolving to `None` is classified as true
by `InterpolatedBoolean.eval` (Python's `None == False` is false, so `None`
is not in `FALSE_VALUES`), where the claim asserts it yields false. -/
theorem C4_counterexample :
    InterpolatedBoolean.eval ⟨Sum.inr "always"⟩ (Except.ok PyVal.none) = true := by
  have h : inFalseValues PyVal.none = false := by
    cases h2 : inFalseValues PyVal.none
    · rfl
    · exact ((inFalseValues_iff PyVal.none).mp h2).elim
  simp [InterpolatedBoolean.eval, engineResult, h]

/-- C4 (amended): evaluating a template yields false exactly for the values
Python-equal to a member of `FALSE_VALUES` — `False`, numeric zero, the
eight falsy literal strings, empty collections — while `None` and every
other resolved value yield true; a template error falls back to the default
`"False"` and yields false; a literal boolean condition passes through. -/
theorem C4_interpolated_boolean_falsiness (cond : String) (v : PyVal) :
    (InterpolatedBoolean.eval ⟨Sum.inr cond⟩ (Except.ok v) = false ↔ FalsyResolved v)
    ∧ InterpolatedBoolean.eval ⟨Sum.inr cond⟩ (Except.error ()) = false
    ∧ ∀ b : Bool, InterpolatedBoolean.eval ⟨Sum.inl b⟩ (Except.ok v) = b := by
  refine ⟨?_, ?_, fun b => rfl⟩
  · rw [← inFalseValues_iff]
    by_cases h : inFalseValues v <;> simp [InterpolatedBoolean.eval, engineResult, h]
  · have h : inFalseValues (.str "False") = true := by
      rw [inFalseValues_iff]
      simp [FalsyResolved]
    simp [InterpolatedBoolean.eval, engineResult, h]

/-- C8 counterexample: two validly constructed slices with identical
innermost `partition` and `cursor_slice` mappings that are nevertheless not
equal — `__eq__` compares the stored constituents, and the nested
constituent compares against a plain mapping via its merged two-key view. -/
theorem C8_counterexample :
    StreamSlice.partition outerA = StreamSlice.partition outerB
    ∧ StreamSlice.cursor_slice outerA = StreamSlice.cursor_slice outerB
    ∧ streamSliceEq outerA outerB = false
    ∧ StreamSlice.make (.slice innerSlice) (.dict []) [] = Except.ok outerA
    ∧ StreamSlice.make (.dict [("a", .int 1)]) (.dict []) [] = Except.ok outerB := by
  refine ⟨rfl, rfl, ?_, ?_, rfl⟩
  · simp [outerA, outerB, innerSlice, streamSliceEq, smapEq, streamSliceDict, smapDict,
      dictEq, pyEqDict, pyEq, lookupStr]
  · simp [StreamSlice.make, keysOverlap_empty_cursor, outerA]

/-- C8 (amended): the `partition` (resp. `cursor_slice`) accessor unwraps
nesting of any depth to the innermost plain mapping, and such nested slices
are validly constructible; equality, however, compares the stored
constituents, not the innermost mappings (see the counterexample). -/
theorem C8_nested_slice_unwrap (n : Nat) (s : StreamSlice) :
    StreamSlice.partition (nestPartition n s) = StreamSlice.partition s
    ∧ StreamSlice.cursor_slice (nestCursor n s) = StreamSlice.cursor_slice s
    ∧ isErr (StreamSlice.make (.slice (nestPartition n s)) (.dict []) []) = false
    ∧ isErr (StreamSlice.make (.dict []) (.slice (nestCursor n s)) []) = false :=
  ⟨nestPartition_partition n s, nestCursor_cursor n s,
    by simp [StreamSlice.make, keysOverlap_empty_cursor, isErr],
    by simp [StreamSlice.make, keysOverlap_empty_partition, isErr]⟩

theorem fetchPages_length_le (f : Nat → Page) :
    ∀ (fuel i budget : Nat), (fetchPages f i fuel budget).1.length ≤ fuel := by
  intro fuel
  induction fuel with
  | zero => intro i b; simp [fetchPages]
  | succ n ih =>
    intro i b
    by_cases hb : b = 0
    · simp [fetchPages, hb]
    · simp only [fetchPages, if_neg hb, List.length_cons]
      exact Nat.succ_le_succ (ih (i + 1) (b - (f i).length))

theorem runSlices_length_le :
    ∀ (parts : List (Nat → Page)) (mp b : Nat),
      (runSlices parts mp b).1.length ≤ parts.length := by
  intro parts
  induction parts with
  | nil => intro mp b; simp [runSlices]
  | cons f rest ih =>
    intro mp b
    by_cases hb : b = 0
    · simp [runSlices, hb]
    · simp only [runSlices, if_neg hb, List.length_cons]
      exact Nat.succ_le_succ (ih mp _)

theorem runSlices_pages_le :
    ∀ (parts : List (Nat → Page)) (mp b : Nat) (sl : List Page),
      sl ∈ (runSlices parts mp b).1 → sl.length ≤ mp := by
  intro parts
  induction parts with
  | nil => intro mp b sl h; simp [runSlices] at h
  | cons f rest ih =>
    intro mp b sl h
    by_cases hb : b = 0
    · simp [runSlices, hb] at h
    · simp only [runSlices, if_neg hb] at h
      rcases List.mem_cons.mp h with rfl | h'
      · exact fetchPages_length_le f mp 0 b
      · exact ih mp _ sl h'

/-- C2: under limits `(max_records = 100, max_slices = 3,
max_pages_per_slice = 2)`, a source of 8 such partitions yields a report
with exactly 3 partitions of exactly 2 pages each — 2 records then 1 —
without hitting the record limit; and in general the report never exceeds
`max_slices` partitions nor `max_pages_per_slice` pages per partition. -/
theorem C2_bounded_orchestration :
    ((read_stream [] ⟨100, 3, 2⟩ (.ok (List.replicate 8 fixturePartition))).slices
        = List.replicate 3 [[0, 1], [2]]
      ∧ (read_stream [] ⟨100, 3, 2⟩
          (.ok (List.replicate 8 fixturePartition))).test_read_limit_reached = false)
    ∧ ∀ (limits : TestReadLimits) (parts : List (Nat → Page)),
        (read_stream [] limits (.ok parts)).slices.length ≤ limits.max_slices
        ∧ ∀ sl ∈ (read_stream [] limits (.ok parts)).slices,
            sl.length ≤ limits.max_pages_per_slice := by
  refine ⟨⟨rfl, rfl⟩, ?_⟩
  intro limits parts
  constructor
  · exact le_trans
      (runSlices_length_le (parts.take limits.max_slices) limits.max_pages_per_slice
        limits.max_records)
      (by simp [List.length_take])
  · intro sl hsl
    exact runSlices_pages_le _ _ _ sl hsl

/-- Witness for C2's ceiling clauses at the fixture input. -/
theorem C2_witness :
    (read_stream [] ⟨100, 3, 2⟩ (.ok (List.replicate 8 fixturePartition))).slices.length ≤ 3
    ∧ [[0, 1], [2]].length ≤ 2 := by
  constructor
  · exact (C2_bounded_orchestration.2 ⟨100, 3, 2⟩ (List.replicate 8 fixturePartition)).1
  · exact (C2_bounded_orchestration.2 ⟨100, 3, 2⟩ (List.replicate 8 fixturePartition)).2
      [[0, 1], [2]] (by decide)

/-- C3: `filter_secrets` is order-dependent.  With secrets `"x"` and `"xk"`
registered in that order, the input `"xk"` masks to `"****k"` (partially
leaking through the longer secret); in the reverse order it masks to
`"****"`.  The source's own TODO comment records this as a bug. -/
theorem C3_filter_secrets_order_dependent :
    filter_secrets [['x'], ['x', 'k']] ['x', 'k'] = ['*', '*', '*', '*', 'k']
    ∧ filter_secrets [['x', 'k'], ['x']] ['x', 'k'] = ['*', '*', '*', '*']
    ∧ filter_secrets [['x'], ['x', 'k']] ['x', 'k']
        ≠ filter_secrets [['x', 'k'], ['x']] ['x', 'k'] := by
  have e1 : str_replace ['x', 'k'] ['x'] maskToken = ['*', '*', '*', '*', 'k'] := by
    rw [str_replace_cons_pos maskToken (by decide) (by decide)]
    show maskToken ++ str_replace ['k'] ['x'] maskToken = _
    rw [str_replace_cons_neg maskToken (by decide), str_replace_nil]
    rfl
  have e2 : str_replace ['*', '*', '*', '*', 'k'] ['x', 'k'] maskToken
      = ['*', '*', '*', '*', 'k'] :=
    str_replace_noop _ _ _ (by decide)
  have e3 : str_replace ['x', 'k'] ['x', 'k'] maskToken = ['*', '*', '*', '*'] := by
    rw [str_replace_cons_pos maskToken (by decide) (by decide)]
    show maskToken ++ str_replace [] ['x', 'k'] maskToken = _
    rw [str_replace_nil]
    rfl
  have e4 : str_replace ['*', '*', '*', '*'] ['x'] maskToken = ['*', '*', '*', '*'] :=
    str_replace_noop _ _ _ (by decide)
  have h1 : filter_secrets [['x'], ['x', 'k']] ['x', 'k'] = ['*', '*', '*', '*', 'k'] := by
    show str_replace (str_replace ['x', 'k'] ['x'] maskToken) ['x', 'k'] maskToken = _
    rw [e1, e2]
  have h2 : filter_secrets [['x', 'k'], ['x']] ['x', 'k'] = ['*', '*', '*', '*'] := by
    show str_replace (str_replace ['x', 'k'] ['x', 'k'] maskToken) ['x'] maskToken = _
    rw [e3, e4]
  exact ⟨h1, h2, by rw [h1, h2]; decide⟩

/-- C1 counterexample: with the secret `"*"` registered and the underlying
read raising an exception whose text is `"*"`, the masked message is
`"****"`, which still contains the raw secret — so the secret occurs in the
serialized report, where the claim asserts it never does. -/
theorem C1_counterexample :
    ['*'] <:+: serializeReport (read_stream [['*']] {} (.error (['*'], []))) := by
  have h1 : filter_secrets [['*']] ['*'] = ['*', '*', '*', '*'] := by
    show str_replace ['*'] ['*'] maskToken = _
    rw [str_replace_cons_pos maskToken (by decide) (by decide)]
    show maskToken ++ str_replace [] ['*'] maskToken = _
    rw [str_replace_nil]
    rfl
  have h2 : filter_secrets [['*']] [] = [] := by
    show str_replace [] ['*'] maskToken = _
    exact str_replace_nil _ _
  have hrep : read_stream [['*']] {} (.error (['*'], []))
      = { logs := [{ message := ['*', '*', '*', '*'], level := .error,
                     internal_message := ['*', '*', '*', '*'], stacktrace := [] }],
          slices := [], test_read_limit_reached := false, auxiliary_requests := [] } := by
    simp [read_stream, h1, h2]
  rw [hrep]
  decide

/-- C1 (amended): for every exception raised by the underlying read, the
orchestrator returns a well-formed report whose log list contains an
error-level entry whose message equals the exception text with every
registered secret replaced by the mask token; and provided every registered
secret is non-empty, contains neither the mask character `'*'` nor the
serialization quote, and does not occur in the report's fixed serialization
syntax, the raw secret occurs nowhere in the serialized report. -/
theorem C1_error_containment
    (secrets : List Str) (limits : TestReadLimits) (msg trace : Str)
    (hsec : ∀ sec ∈ secrets,
        sec ≠ [] ∧ ('*' ∉ sec ∧ '"' ∉ sec)
          ∧ ∀ c ∈ errorReportSkeleton, ¬ sec <:+: c) :
    (∃ e ∈ (read_stream secrets limits (.error (msg, trace))).logs,
        e.level = .error ∧ e.message = filter_secrets secrets msg)
    ∧ ∀ sec ∈ secrets,
        ¬ sec <:+: serializeReport (read_stream secrets limits (.error (msg, trace))) := by
  have hstarfree : ∀ s' ∈ secrets, s' ≠ [] ∧ ∀ ch ∈ s', ch ≠ '*' := by
    intro t ht
    refine ⟨(hsec t ht).1, fun ch hch heq => ?_⟩
    exact absurd (heq ▸ hch) (hsec t ht).2.1.1
  constructor
  · exact ⟨_, List.mem_cons_self _ _, rfl, rfl⟩
  · intro sec hmem hinf
    obtain ⟨hne, ⟨hstar, hquote⟩, hskel⟩ := hsec sec hmem
    have hser : serializeReport (read_stream secrets limits (.error (msg, trace)))
        = joinQ ["logs:[".toList,
            "message:".toList, filter_secrets secrets msg,
            "level:".toList, levelChunk .error,
            "internal_message:".toList, filter_secrets secrets msg,
            "stacktrace:".toList, filter_secrets secrets trace,
            "slices:".toList, (toString ([] : List (List Page))).toList,
            "test_read_limit_reached:".toList, boolChunk false,
            "auxiliary_requests:".toList, joinQ []] := by
      simp [serializeReport, read_stream, logChunks]
    rw [hser] at hinf
    refine joinQ_absent _ sec hne hquote ?_ hinf
    intro c hc
    simp only [List.mem_cons, List.not_mem_nil, or_false] at hc
    rcases hc with rfl | rfl | rfl | rfl | rfl | rfl | rfl | rfl | rfl | rfl | rfl | rfl
      | rfl | rfl | rfl
    · exact hskel _ (by simp [errorReportSkeleton])
    · exact hskel _ (by simp [errorReportSkeleton])
    · exact filter_secrets_absent secrets msg hstarfree sec hmem
    · exact hskel _ (by simp [errorReportSkeleton])
    · exact hskel _ (by simp [errorReportSkeleton])
    · exact hskel _ (by simp [errorReportSkeleton])
    · exact filter_secrets_absent secrets msg hstarfree sec hmem
    · exact hskel _ (by simp [errorReportSkeleton])
    · exact filter_secrets_absent secrets trace hstarfree sec hmem
    · exact hskel _ (by simp [errorReportSkeleton])
    · exact hskel _ (by simp [errorReportSkeleton])
    · exact hskel _ (by simp [errorReportSkeleton])
    · exact hskel _ (by simp [errorReportSkeleton])
    · exact hskel _ (by simp [errorReportSkeleton])
    · exact hskel _ (by simp [errorReportSkeleton, joinQ])

/-- Witness for C1 with the secret `"key"` and exception text `"key!"`. -/
theorem C1_witness :
    (∃ e ∈ (read_stream [['k', 'e', 'y']] {} (.error (['k', 'e', 'y', '!'], []))).logs,
        e.level = .error
          ∧ e.message = filter_secrets [['k', 'e', 'y']] ['k', 'e', 'y', '!'])
    ∧ ∀ sec ∈ [['k', 'e', 'y']],
        ¬ sec <:+: serializeReport
            (read_stream [['k', 'e', 'y']] {} (.error (['k', 'e', 'y', '!'], []))) :=
  C1_error_containment [['k', 'e', 'y']] {} ['k', 'e', 'y', '!'] [] (by decide)

end Airbyte

